import Mathlib

/-!
Verification of the `smee-it` SSE webhook client (`src/index.ts`).

The development shallowly embeds the parts of the client that the checked
properties talk about:

* a model of the JSON values manipulated by the frame decoder, together with
  executable models of the platform functions `JSON.stringify` and
  `JSON.parse` that the decoder calls (numbers are modelled as integers,
  which covers every value the client itself produces or compares);
* the frame decoder located in the `onmessage` handler of
  `SmeeClient.start`;
* the session lifecycle (`start` / `stop` and the four wired transport
  callbacks) as a step function on an explicit client state;
* the listener registry (`on` / `off` / `#emit`) with callbacks identified
  by reference tokens;
* the `#emit` fan-out under throwing callbacks (JavaScript `Set.forEach`
  propagates an exception and stops the iteration);
* the response handling of the static `createChannel` helper (the actual
  HTTP round trip is external; its response is the model's input).
-/

namespace Smee

/-- JSON values, as produced by `JSON.parse` and consumed by
`JSON.stringify`.  Object fields are kept in their textual order, which is
also the property order of the JavaScript object. Numbers are modelled as
integers. -/
inductive Json where
  | null
  | bool (b : Bool)
  | num (n : Int)
  | str (s : String)
  | arr (elems : List Json)
  | obj (fields : List (String × Json))

/-- The character for a value below 16, matching the lowercase hexadecimal
digits used by `JSON.stringify` in `\u00XX` escapes (also used for the
decimal digits 0-9). -/
def hexDigitChar (n : Nat) : Char :=
  if n < 10 then Char.ofNat (48 + n) else Char.ofNat (87 + n)

/-- How `JSON.stringify` renders one character inside a string literal
(ECMA-262 QuoteJSONString): two-character escapes for the quote, backslash
and the named control characters, `\u00XX` for the other control
characters, and the character itself otherwise. -/
def escapeChar (c : Char) : List Char :=
  if c = '"' then ['\\', '"']
  else if c = '\\' then ['\\', '\\']
  else if c = '\x08' then ['\\', 'b']
  else if c = '\x0c' then ['\\', 'f']
  else if c = '\n' then ['\\', 'n']
  else if c = '\x0d' then ['\\', 'r']
  else if c = '\t' then ['\\', 't']
  else if c.toNat < 32 then
    '\\' :: 'u' :: '0' :: '0' ::
      [hexDigitChar (c.toNat / 16), hexDigitChar (c.toNat % 16)]
  else [c]

/-- A JSON string literal: quote, escaped characters, quote. -/
def quoteChars (s : List Char) : List Char :=
  '"' :: (s.flatMap escapeChar ++ ['"'])

/-- Decimal digits of a natural number, least significant first. -/
def natDigitsRev (n : Nat) : List Char :=
  if _h : n < 10 then [hexDigitChar n]
  else hexDigitChar (n % 10) :: natDigitsRev (n / 10)
decreasing_by exact Nat.div_lt_self (by omega) (by omega)

/-- Decimal rendering of a natural number. -/
def natChars (n : Nat) : List Char :=
  (natDigitsRev n).reverse

/-- Decimal rendering of an integer, as `JSON.stringify` renders an
integral number. -/
def intChars (n : Int) : List Char :=
  if n < 0 then '-' :: natChars (-n).toNat else natChars n.toNat

mutual

/-- Model of `JSON.stringify` (character list form): the compact rendering
with no insignificant whitespace that JavaScript produces when called with
no spacing argument, exactly as the frame decoder calls it. -/
def stringifyChars : Json → List Char
  | .null => 'n' :: ['u', 'l', 'l']
  | .bool true => 't' :: ['r', 'u', 'e']
  | .bool false => 'f' :: ['a', 'l', 's', 'e']
  | .num n => intChars n
  | .str s => quoteChars s.data
  | .arr [] => ['[', ']']
  | .arr (x :: xs) => '[' :: (stringifyElems x xs ++ [']'])
  | .obj [] => ['\x7b', '\x7d']
  | .obj (kv :: kvs) => '\x7b' :: (stringifyFields kv kvs ++ ['\x7d'])
termination_by j => sizeOf j
decreasing_by all_goals (simp_wf; try omega)

/-- Comma-separated renderings of the elements of a non-empty array. -/
def stringifyElems : Json → List Json → List Char
  | x, [] => stringifyChars x
  | x, y :: ys => stringifyChars x ++ ',' :: stringifyElems y ys
termination_by x xs => sizeOf x + sizeOf xs
decreasing_by all_goals (simp_wf; try omega)

/-- Comma-separated `"key":value` renderings of the fields of a non-empty
object. -/
def stringifyFields : String × Json → List (String × Json) → List Char
  | (k, v), [] => quoteChars k.data ++ ':' :: stringifyChars v
  | (k, v), kv :: kvs =>
    quoteChars k.data ++ ':' :: stringifyChars v ++ ',' :: stringifyFields kv kvs
termination_by kv kvs => sizeOf kv + sizeOf kvs
decreasing_by all_goals (simp_wf; try omega)

end

/-- Model of `JSON.stringify` on JSON values. -/
def Json.stringify (j : Json) : String :=
  ⟨stringifyChars j⟩

/-- Whether a character is a decimal digit (0-9). -/
def isDigitChar (c : Char) : Bool :=
  48 ≤ c.toNat && c.toNat ≤ 57

/-- Numeric value of a decimal digit character. -/
def digitVal (c : Char) : Nat :=
  c.toNat - 48

/-- Numeric value of a hexadecimal digit character, if it is one. -/
def hexVal (c : Char) : Option Nat :=
  if 48 ≤ c.toNat && c.toNat ≤ 57 then some (c.toNat - 48)
  else if 97 ≤ c.toNat && c.toNat ≤ 102 then some (c.toNat - 87)
  else if 65 ≤ c.toNat && c.toNat ≤ 70 then some (c.toNat - 55)
  else none

/-- Prepend a decoded character to the pending result of a string body
parse. -/
def consFst (c : Char) (o : Option (List Char × List Char)) :
    Option (List Char × List Char) :=
  o.map (fun p => (c :: p.1, p.2))

/-- Parse the body of a JSON string literal (the opening quote already
consumed) up to and including the closing quote, decoding escapes; returns
the decoded characters and the remaining input. -/
def unescapeStr : List Char → Option (List Char × List Char)
  | [] => none
  | c :: rest =>
    if c = '"' then some ([], rest)
    else if c = '\\' then
      match rest with
      | [] => none
      | e :: rest2 =>
        if e = '"' then consFst '"' (unescapeStr rest2)
        else if e = '\\' then consFst '\\' (unescapeStr rest2)
        else if e = '/' then consFst '/' (unescapeStr rest2)
        else if e = 'b' then consFst '\x08' (unescapeStr rest2)
        else if e = 'f' then consFst '\x0c' (unescapeStr rest2)
        else if e = 'n' then consFst '\n' (unescapeStr rest2)
        else if e = 'r' then consFst '\x0d' (unescapeStr rest2)
        else if e = 't' then consFst '\t' (unescapeStr rest2)
        else if e = 'u' then
          match rest2 with
          | a :: b :: c2 :: d :: rest3 =>
            match hexVal a, hexVal b, hexVal c2, hexVal d with
            | some x1, some x2, some x3, some x4 =>
              consFst (Char.ofNat (((x1 * 16 + x2) * 16 + x3) * 16 + x4))
                (unescapeStr rest3)
            | _, _, _, _ => none
          | _ => none
        else none
    else consFst c (unescapeStr rest)

/-- Split the longest leading run of decimal digits from the input. -/
def takeDigits : List Char → List Char × List Char
  | [] => ([], [])
  | c :: cs =>
    if isDigitChar c then
      let p := takeDigits cs
      (c :: p.1, p.2)
    else ([], c :: cs)

/-- Value of a string of decimal digits, most significant first. -/
def digitsToNat (ds : List Char) : Nat :=
  ds.foldl (fun acc c => 10 * acc + digitVal c) 0

/-- Parse a JSON number (integral form: optional minus sign followed by
decimal digits). -/
def parseNum (cs : List Char) : Option (Json × List Char) :=
  match cs with
  | [] => none
  | c :: rest =>
    if c = '-' then
      match takeDigits rest with
      | ([], _) => none
      | (d :: ds, r) => some (.num (-(digitsToNat (d :: ds) : Int)), r)
    else
      match takeDigits (c :: rest) with
      | ([], _) => none
      | (d :: ds, r) => some (.num ((digitsToNat (d :: ds) : Int)), r)

mutual

/-- Model of `JSON.parse` on one JSON value (fuel-indexed recursion; the
fuel bounds the nesting depth and list length, and the top-level wrapper
supplies enough of it for any input).  Parses the compact JSON grammar —
the exact language `JSON.stringify` emits — and returns the value together
with the unconsumed remainder of the input. -/
def parseVal (fuel : Nat) (cs : List Char) : Option (Json × List Char) :=
  match fuel with
  | 0 => none
  | f + 1 =>
    match cs with
    | [] => none
    | c :: rest =>
      if c = 'n' then
        match rest with
        | 'u' :: 'l' :: 'l' :: r => some (.null, r)
        | _ => none
      else if c = 't' then
        match rest with
        | 'r' :: 'u' :: 'e' :: r => some (.bool true, r)
        | _ => none
      else if c = 'f' then
        match rest with
        | 'a' :: 'l' :: 's' :: 'e' :: r => some (.bool false, r)
        | _ => none
      else if c = '"' then
        match unescapeStr rest with
        | some (s, r) => some (.str ⟨s⟩, r)
        | none => none
      else if c = '[' then
        match rest with
        | [] => none
        | c2 :: r2 =>
          if c2 = ']' then some (.arr [], r2)
          else
            match parseElems f (c2 :: r2) with
            | some (xs, r) => some (.arr xs, r)
            | none => none
      else if c = '\x7b' then
        match rest with
        | [] => none
        | c2 :: r2 =>
          if c2 = '\x7d' then some (.obj [], r2)
          else
            match parseFields f (c2 :: r2) with
            | some (kvs, r) => some (.obj kvs, r)
            | none => none
      else if c = '-' ∨ isDigitChar c = true then parseNum (c :: rest)
      else none

/-- Parse the non-empty element list of a JSON array, consuming the
closing bracket. -/
def parseElems (fuel : Nat) (cs : List Char) : Option (List Json × List Char) :=
  match fuel with
  | 0 => none
  | f + 1 =>
    match parseVal f cs with
    | none => none
    | some (v, rest) =>
      match rest with
      | [] => none
      | c :: r =>
        if c = ',' then
          match parseElems f r with
          | some (xs, r2) => some (v :: xs, r2)
          | none => none
        else if c = ']' then some ([v], r)
        else none

/-- Parse the non-empty field list of a JSON object, consuming the closing
brace. -/
def parseFields (fuel : Nat) (cs : List Char) :
    Option (List (String × Json) × List Char) :=
  match fuel with
  | 0 => none
  | f + 1 =>
    match cs with
    | [] => none
    | c :: rest =>
      if c = '"' then
        match unescapeStr rest with
        | none => none
        | some (k, rest1) =>
          match rest1 with
          | [] => none
          | c1 :: rest2 =>
            if c1 = ':' then
              match parseVal f rest2 with
              | none => none
              | some (v, rest3) =>
                match rest3 with
                | [] => none
                | c2 :: rest4 =>
                  if c2 = ',' then
                    match parseFields f rest4 with
                    | some (kvs, r2) => some ((⟨k⟩, v) :: kvs, r2)
                    | none => none
                  else if c2 = '\x7d' then some ([(⟨k⟩, v)], rest4)
                  else none
            else none
      else none

end

/-- Model of `JSON.parse` on whole documents: the input must be consumed
exactly.  The fuel `length + 1` is sufficient for every parsable input
because each unit of fuel spent consumes at least one input character. -/
def Json.parse (s : String) : Option Json :=
  match parseVal (s.data.length + 1) s.data with
  | some (v, []) => some v
  | _ => none

mutual

/-- Fuel sufficient for `parseVal` to parse the rendering of a value. -/
def pfuel : Json → Nat
  | .arr (x :: xs) => 1 + pfuelElems x xs
  | .obj (kv :: kvs) => 1 + pfuelFields kv kvs
  | .null => 1
  | .bool _ => 1
  | .num _ => 1
  | .str _ => 1
  | .arr [] => 1
  | .obj [] => 1
termination_by j => sizeOf j
decreasing_by all_goals (simp_wf; try omega)

/-- Fuel sufficient for `parseElems` on a rendered element list. -/
def pfuelElems : Json → List Json → Nat
  | x, [] => 1 + pfuel x
  | x, y :: ys => 1 + pfuel x + pfuelElems y ys
termination_by x xs => sizeOf x + sizeOf xs
decreasing_by all_goals (simp_wf; try omega)

/-- Fuel sufficient for `parseFields` on a rendered field list. -/
def pfuelFields : String × Json → List (String × Json) → Nat
  | (_, v), [] => 1 + pfuel v
  | (_, v), kv :: kvs => 1 + pfuel v + pfuelFields kv kvs
termination_by kv kvs => sizeOf kv + sizeOf kvs
decreasing_by all_goals (simp_wf; try omega)

end

/-- The remainder that may legally follow a rendered number: empty, or a
non-digit first character (so the number parser stops exactly at the
boundary). -/
def restOk : List Char → Bool
  | [] => true
  | c :: _ => !isDigitChar c

/-- One trailing slash removed, as `source.replace(/\/$/, '')` does in the
`SmeeClient` constructor and in `createChannel`. -/
def stripTrailingSlash (s : String) : String :=
  if s.data.getLast? = some '/' then ⟨s.data.dropLast⟩ else s

/-- The decoded message delivered on the `message` event (interface
`SmeeMessage` in `src/index.ts`).  `query` and `timestamp` hold whatever
JSON value the frame carried (the TypeScript code only casts them), so
they are kept as JSON values here. -/
structure SmeeMessage where
  body : Json
  query : Json
  timestamp : Json
  headers : List (String × String)
  rawBody : String

/-- JavaScript `x ?? d` applied to a field extracted from a parsed JSON
object: the extracted value is absent (`undefined`) or a JSON value, and
`??` falls back on both `undefined` and `null`. -/
def jsNullish (v : Option Json) (d : Json) : Json :=
  match v with
  | none => d
  | some .null => d
  | some x => x

/-- The frame decoder: the body of the `onmessage` handler installed by
`SmeeClient.start` (src/index.ts lines 294-313), applied to the already
parsed JSON object of the frame (`JSON.parse(e.data)`), given as its field
list.  `now` is the value `Date.now()` would return at decode time. -/
def decodeFrame (raw : List (String × Json)) (now : Int) : SmeeMessage :=
  let body := raw.lookup "body"
  let query := raw.lookup "query"
  let timestamp := raw.lookup "timestamp"
  let rest := raw.filter fun kv =>
    kv.1 != "body" && kv.1 != "query" && kv.1 != "timestamp"
  let headers := rest.filterMap fun kv =>
    match kv.2 with
    | .str s => some (kv.1, s)
    | _ => none
  let rawBody := match body with
    | some b => Json.stringify b
    | none => ""
  { body := jsNullish body (.obj [])
    query := jsNullish query (.obj [])
    timestamp := jsNullish timestamp (.num now)
    headers := headers
    rawBody := rawBody }

/-- The event object handed to `es.onerror`: what matters to the handler
is whether it carries a `message` field (the `'message' in e` test) and,
if so, that field's string value. -/
structure ESErrorEvent where
  message : Option String

/-- A JavaScript `Error` as constructed by the `onerror` handler:
`new Error(text, { cause })`. -/
structure JsError where
  message : String
  cause : Option ESErrorEvent

/-- The payloads published through `#emit`, one constructor per event kind
of `SmeeEvents` (`open` is a Lean keyword, hence `opened`). -/
inductive SmeeEvent where
  | message (m : SmeeMessage)
  | ping
  | opened
  | error (e : JsError)
  | close

/-- The mutable state of a `SmeeClient` relevant to the session lifecycle:
the `#es` field (transport handles are identified by the number they were
created with), a fresh-handle counter, and the set of handles on which
`close()` has been called. -/
structure ClientState where
  es : Option Nat
  nextId : Nat
  closedIds : List Nat

/-- A freshly constructed client: `#es = null`. -/
def initialState : ClientState :=
  { es := none, nextId := 0, closedIds := [] }

/-- The operations that drive a session: the public `start`/`stop` calls
and the four transport callbacks wired by `start` (an `es*` event reaches
the session only while a live transport exists). -/
inductive Cmd where
  | start
  | stop
  | esOpen
  | esMessage (raw : List (String × Json)) (now : Int)
  | esPing
  | esError (e : ESErrorEvent)

/-- One step of the session: the new state and the list of events this
step publishes through `#emit`, in order.  Mirrors `start` (early return
when `#es` is set, otherwise a new transport with the four callbacks) and
`stop` (`#es?.close()`, `#es = null`, unconditional `close` publication)
from `src/index.ts`. -/
def step (s : ClientState) (c : Cmd) : ClientState × List SmeeEvent :=
  match c with
  | .start =>
    match s.es with
    | some _ => (s, [])
    | none =>
      ({ s with es := some s.nextId, nextId := s.nextId + 1 }, [])
  | .stop =>
    ({ s with
        es := none
        closedIds := match s.es with
          | some i => s.closedIds ++ [i]
          | none => s.closedIds },
      [.close])
  | .esOpen =>
    if s.es.isSome then (s, [.opened]) else (s, [])
  | .esMessage raw now =>
    if s.es.isSome then (s, [.message (decodeFrame raw now)]) else (s, [])
  | .esPing =>
    if s.es.isSome then (s, [.ping]) else (s, [])
  | .esError e =>
    if s.es.isSome then
      (s, [.error { message := e.message.getD "EventSource error", cause := some e }])
    else (s, [])

/-- Run a command sequence, collecting all published events in order. -/
def run (s : ClientState) : List Cmd → ClientState × List SmeeEvent
  | [] => (s, [])
  | c :: cs =>
    let p := step s c
    let q := run p.1 cs
    (q.1, p.2 ++ q.2)

/-- The listener registry `#handlers : Map<string, Set<Handler>>`.
Callbacks are identified by reference; the model names them with numeric
tokens.  The map is a key-ordered association list and each `Set` is its
insertion-ordered, duplicate-free element list. -/
structure Dispatcher where
  handlers : List (String × List Nat)

/-- `on(event, handler)`: create the entry on first use, then `Set.add`
(no effect when the callback is already registered, append otherwise). -/
def Dispatcher.on (d : Dispatcher) (event : String) (h : Nat) : Dispatcher :=
  if (d.handlers.lookup event).isSome then
    ⟨d.handlers.map fun kv =>
      if kv.1 = event then (kv.1, if h ∈ kv.2 then kv.2 else kv.2 ++ [h]) else kv⟩
  else ⟨d.handlers ++ [(event, [h])]⟩

/-- `off(event, handler)`: `#handlers.get(event)?.delete(handler)` — no
entry or an unregistered callback leaves everything unchanged. -/
def Dispatcher.off (d : Dispatcher) (event : String) (h : Nat) : Dispatcher :=
  ⟨d.handlers.map fun kv =>
    if kv.1 = event then (kv.1, kv.2.erase h) else kv⟩

/-- The callbacks `#emit(event, data)` invokes, in invocation order:
`#handlers.get(event)?.forEach(h => h(data))`. -/
def Dispatcher.emitInvoked (d : Dispatcher) (event : String) : List Nat :=
  (d.handlers.lookup event).getD []

/-- The states reachable through the `Map`/`Set` operations: keys are
unique and each callback set is duplicate-free. -/
def Dispatcher.WF (d : Dispatcher) : Prop :=
  (d.handlers.map Prod.fst).Nodup ∧ ∀ kv ∈ d.handlers, kv.2.Nodup

/-- `Set.forEach(h => h(data))` over callbacks that may throw: `beh` gives
each callback's outcome on the published value.  Returns the callbacks
that were invoked, in order, and the exception escaping the loop, if any —
in JavaScript an exception raised by a callback propagates out of
`forEach` at once, so iteration stops with the thrower. -/
def forEachThrow {ε : Type} : List Nat → (Nat → Except ε Unit) → List Nat × Option ε
  | [], _ => ([], none)
  | h :: t, beh =>
    match beh h with
    | .ok _ =>
      let p := forEachThrow t beh
      (h :: p.1, p.2)
    | .error e => ([h], some e)

/-- The provisioning response: its header list (names compared
case-insensitively by `Headers.get`). -/
structure FetchResponse where
  headers : List (String × String)

/-- ASCII lower-casing of one character (header names are ASCII). -/
def lowerChar (c : Char) : Char :=
  if 65 ≤ c.toNat && c.toNat ≤ 90 then Char.ofNat (c.toNat + 32) else c

/-- ASCII lower-casing of a header name. -/
def lowerStr (s : String) : String :=
  ⟨s.data.map lowerChar⟩

/-- `res.headers.get(name)`: first header whose name matches
case-insensitively. -/
def headersGet (name : String) (hs : List (String × String)) : Option String :=
  (hs.find? fun kv => lowerStr kv.1 == lowerStr name).map Prod.snd

/-- The response handling of `SmeeClient.createChannel` (src/index.ts
lines 208-214).  The HEAD request itself is external; the function maps
its response to the returned channel URL or the thrown error.  The guard
is JavaScript's `if (!location)`, which is taken both when the header is
absent (`null`) and when its value is the empty string. -/
def createChannel (res : FetchResponse) : Except String String :=
  match headersGet "location" res.headers with
  | none => .error "Failed to create new Smee channel"
  | some l =>
    if l = "" then .error "Failed to create new Smee channel" else .ok l

/-! ### Digit and character lemmas -/

theorem isDigitChar_iff {c : Char} :
    isDigitChar c = true ↔ 48 ≤ c.toNat ∧ c.toNat ≤ 57 := by
  simp [isDigitChar]

theorem ne_of_toNat_ne {c d : Char} (h : c.toNat ≠ d.toNat) : c ≠ d :=
  fun e => h (congrArg Char.toNat e)

theorem hexDigitChar_isDigit {m : Nat} (h : m < 10) :
    isDigitChar (hexDigitChar m) = true := by
  interval_cases m <;> decide

theorem digitVal_hexDigitChar {m : Nat} (h : m < 10) :
    digitVal (hexDigitChar m) = m := by
  interval_cases m <;> decide

theorem hexVal_hexDigitChar {m : Nat} (h : m < 16) :
    hexVal (hexDigitChar m) = some m := by
  interval_cases m <;> decide

theorem natDigitsRev_ne_nil (n : Nat) : natDigitsRev n ≠ [] := by
  rw [natDigitsRev]
  split <;> simp

theorem natDigitsRev_digits (n : Nat) :
    ∀ c ∈ natDigitsRev n, isDigitChar c = true := by
  induction n using Nat.strong_induction_on with
  | _ n ih =>
    rw [natDigitsRev]
    split
    · next h =>
      intro c hc
      simp only [List.mem_singleton] at hc
      subst hc
      exact hexDigitChar_isDigit h
    · next h =>
      intro c hc
      rcases List.mem_cons.mp hc with rfl | hc
      · exact hexDigitChar_isDigit (Nat.mod_lt _ (by omega))
      · have hlt : n / 10 < n := Nat.div_lt_self (by omega) (by omega)
        exact ih (n / 10) hlt c hc

theorem natChars_ne_nil (n : Nat) : natChars n ≠ [] := by
  simpa [natChars] using natDigitsRev_ne_nil n

theorem natChars_digits (n : Nat) :
    ∀ c ∈ natChars n, isDigitChar c = true := by
  intro c hc
  exact natDigitsRev_digits n c (List.mem_reverse.mp hc)

theorem natChars_lt {n : Nat} (h : n < 10) : natChars n = [hexDigitChar n] := by
  unfold natChars
  rw [natDigitsRev]
  simp [h]

theorem natChars_ge {n : Nat} (h : ¬n < 10) :
    natChars n = natChars (n / 10) ++ [hexDigitChar (n % 10)] := by
  unfold natChars
  conv_lhs => rw [natDigitsRev]
  simp [h]

theorem digitsToNat_append (xs : List Char) (c : Char) :
    digitsToNat (xs ++ [c]) = 10 * digitsToNat xs + digitVal c := by
  simp [digitsToNat, List.foldl_append]

theorem digitsToNat_natChars (n : Nat) : digitsToNat (natChars n) = n := by
  induction n using Nat.strong_induction_on with
  | _ n ih =>
    by_cases h : n < 10
    · rw [natChars_lt h]
      simp [digitsToNat, digitVal_hexDigitChar h]
    · rw [natChars_ge h, digitsToNat_append,
        ih (n / 10) (Nat.div_lt_self (by omega) (by omega)),
        digitVal_hexDigitChar (Nat.mod_lt _ (by omega))]
      omega

theorem takeDigits_append (ds rest : List Char)
    (hds : ∀ c ∈ ds, isDigitChar c = true) (hrest : restOk rest = true) :
    takeDigits (ds ++ rest) = (ds, rest) := by
  induction ds with
  | nil =>
    simp only [List.nil_append]
    cases rest with
    | nil => rfl
    | cons c t =>
      have hc : isDigitChar c = false := by
        simpa [restOk] using hrest
      simp [takeDigits, hc]
  | cons c t ih =>
    have hc : isDigitChar c = true := hds c (by simp)
    have ih' := ih (fun d hd => hds d (by simp [hd]))
    simp [takeDigits, hc, ih']

theorem parseNum_intChars (n : Int) (rest : List Char)
    (hrest : restOk rest = true) :
    parseNum (intChars n ++ rest) = some (.num n, rest) := by
  by_cases hn : n < 0
  · obtain ⟨d, ds, hcons⟩ := List.exists_cons_of_ne_nil (natChars_ne_nil (-n).toNat)
    have htake : takeDigits (natChars (-n).toNat ++ rest) = (d :: ds, rest) := by
      rw [takeDigits_append _ _ (natChars_digits _) hrest, hcons]
    have hval : digitsToNat (d :: ds) = (-n).toNat := by
      rw [← hcons, digitsToNat_natChars]
    rw [intChars, if_pos hn, List.cons_append]
    simp only [parseNum, if_true]
    rw [htake]
    show some (Json.num (-(digitsToNat (d :: ds) : Int)), rest) = some (Json.num n, rest)
    rw [hval]
    have : -(((-n).toNat : Int)) = n := by omega
    rw [this]
  · obtain ⟨d, ds, hcons⟩ := List.exists_cons_of_ne_nil (natChars_ne_nil n.toNat)
    have hd : isDigitChar d = true := by
      apply natChars_digits n.toNat
      rw [hcons]
      simp
    have hdne : d ≠ '-' := by
      apply ne_of_toNat_ne
      have := isDigitChar_iff.mp hd
      have h45 : ('-').toNat = 45 := by decide
      omega
    have htake : takeDigits (d :: (ds ++ rest)) = (d :: ds, rest) := by
      rw [← List.cons_append, ← hcons, takeDigits_append _ _ (natChars_digits _) hrest]
    have hval : digitsToNat (d :: ds) = n.toNat := by
      rw [← hcons, digitsToNat_natChars]
    rw [intChars, if_neg hn, hcons, List.cons_append]
    simp only [parseNum]
    rw [if_neg hdne]
    rw [htake]
    show some (Json.num ((digitsToNat (d :: ds) : Int)), rest) = some (Json.num n, rest)
    rw [hval]
    have : ((n.toNat : Int)) = n := by omega
    rw [this]

/-! ### String escape round trip -/

theorem unescape_escape (s rest : List Char) :
    unescapeStr (s.flatMap escapeChar ++ '"' :: rest) = some (s, rest) := by
  induction s with
  | nil =>
    rw [List.flatMap_nil, List.nil_append, unescapeStr.eq_def]
    simp
  | cons c t ih =>
    rw [List.flatMap_cons, List.append_assoc]
    by_cases h1 : c = '"'
    · subst h1
      rw [show escapeChar '"' = ['\\', '"'] from rfl]
      simp only [List.cons_append, List.nil_append]
      rw [unescapeStr.eq_def]
      simp [consFst, ih]
    by_cases h2 : c = '\\'
    · subst h2
      rw [show escapeChar '\\' = ['\\', '\\'] from rfl]
      simp only [List.cons_append, List.nil_append]
      rw [unescapeStr.eq_def]
      simp [consFst, ih]
    by_cases h3 : c = '\x08'
    · subst h3
      rw [show escapeChar '\x08' = ['\\', 'b'] from rfl]
      simp only [List.cons_append, List.nil_append]
      rw [unescapeStr.eq_def]
      simp [consFst, ih]
    by_cases h4 : c = '\x0c'
    · subst h4
      rw [show escapeChar '\x0c' = ['\\', 'f'] from rfl]
      simp only [List.cons_append, List.nil_append]
      rw [unescapeStr.eq_def]
      simp [consFst, ih]
    by_cases h5 : c = '\n'
    · subst h5
      rw [show escapeChar '\n' = ['\\', 'n'] from rfl]
      simp only [List.cons_append, List.nil_append]
      rw [unescapeStr.eq_def]
      simp [consFst, ih]
    by_cases h6 : c = '\x0d'
    · subst h6
      rw [show escapeChar '\x0d' = ['\\', 'r'] from rfl]
      simp only [List.cons_append, List.nil_append]
      rw [unescapeStr.eq_def]
      simp [consFst, ih]
    by_cases h7 : c = '\t'
    · subst h7
      rw [show escapeChar '\t' = ['\\', 't'] from rfl]
      simp only [List.cons_append, List.nil_append]
      rw [unescapeStr.eq_def]
      simp [consFst, ih]
    by_cases h8 : c.toNat < 32
    · have hdiv : c.toNat / 16 < 16 := by omega
      have hmod : c.toNat % 16 < 16 := by omega
      rw [escapeChar, if_neg h1, if_neg h2, if_neg h3, if_neg h4, if_neg h5,
        if_neg h6, if_neg h7, if_pos h8]
      simp only [List.cons_append, List.nil_append]
      rw [unescapeStr.eq_def]
      simp [hexVal_hexDigitChar hdiv, hexVal_hexDigitChar hmod,
        (by decide : hexVal '0' = some 0), consFst, ih]
      have hchar : ∀ X, X = c.toNat → Char.ofNat X = c := by
        intro X hX
        rw [hX, Char.ofNat_toNat]
      exact hchar _ (by omega)
    · have hne : escapeChar c = [c] := by
        rw [escapeChar, if_neg h1, if_neg h2, if_neg h3, if_neg h4, if_neg h5,
          if_neg h6, if_neg h7, if_neg h8]
      rw [hne]
      simp only [List.cons_append, List.nil_append]
      rw [unescapeStr.eq_def]
      simp [h1, h2, consFst, ih]

/-! ### Shape lemmas about renderings -/

theorem restOk_rsq (rest : List Char) : restOk (']' :: rest) = true := by
  simp only [restOk]
  decide

theorem restOk_comma (rest : List Char) : restOk (',' :: rest) = true := by
  simp only [restOk]
  decide

theorem restOk_rbrace (rest : List Char) : restOk ('\x7d' :: rest) = true := by
  simp only [restOk]
  decide

theorem intChars_ne_nil (n : Int) : intChars n ≠ [] := by
  unfold intChars
  split
  · simp
  · exact natChars_ne_nil _

theorem stringifyElems_eq_append (x : Json) (xs : List Json) :
    ∃ T, stringifyElems x xs = stringifyChars x ++ T := by
  cases xs with
  | nil => exact ⟨[], by simp [stringifyElems]⟩
  | cons y ys => exact ⟨',' :: stringifyElems y ys, by simp [stringifyElems]⟩

theorem stringifyFields_head (kv : String × Json) (kvs : List (String × Json)) :
    ∃ T, stringifyFields kv kvs = '"' :: T := by
  obtain ⟨k, v⟩ := kv
  cases kvs with
  | nil =>
    exact ⟨k.data.flatMap escapeChar ++ ['"'] ++ ':' :: stringifyChars v,
      by simp [stringifyFields, quoteChars]⟩
  | cons kv2 kvs2 =>
    exact ⟨k.data.flatMap escapeChar ++ ['"'] ++
        ':' :: stringifyChars v ++ ',' :: stringifyFields kv2 kvs2,
      by simp [stringifyFields, quoteChars]⟩

theorem stringifyChars_head_ne (v : Json) :
    ∃ c cs, stringifyChars v = c :: cs ∧ c ≠ ']' ∧ c ≠ '\x7d' := by
  cases v with
  | null => exact ⟨'n', ['u', 'l', 'l'], by simp [stringifyChars], by decide, by decide⟩
  | bool b =>
    cases b with
    | true => exact ⟨'t', ['r', 'u', 'e'], by simp [stringifyChars], by decide, by decide⟩
    | false => exact ⟨'f', ['a', 'l', 's', 'e'], by simp [stringifyChars], by decide, by decide⟩
  | num n =>
    by_cases hn : n < 0
    · exact ⟨'-', natChars (-n).toNat, by simp [stringifyChars, intChars, hn],
        by decide, by decide⟩
    · obtain ⟨d, ds, hcons⟩ := List.exists_cons_of_ne_nil (natChars_ne_nil n.toNat)
      have hd : isDigitChar d = true := by
        apply natChars_digits n.toNat
        rw [hcons]
        simp
      have hb := isDigitChar_iff.mp hd
      refine ⟨d, ds, ?_, ne_of_toNat_ne ?_, ne_of_toNat_ne ?_⟩
      · simp [stringifyChars, intChars, hn, hcons]
      · have : (']').toNat = 93 := by decide
        omega
      · have : ('\x7d').toNat = 125 := by decide
        omega
  | str s =>
    exact ⟨'"', s.data.flatMap escapeChar ++ ['"'],
      by simp [stringifyChars, quoteChars], by decide, by decide⟩
  | arr xs =>
    cases xs with
    | nil => exact ⟨'[', [']'], by simp [stringifyChars], by decide, by decide⟩
    | cons x xs' =>
      exact ⟨'[', stringifyElems x xs' ++ [']'], by simp [stringifyChars],
        by decide, by decide⟩
  | obj kvs =>
    cases kvs with
    | nil => exact ⟨'\x7b', ['\x7d'], by simp [stringifyChars], by decide, by decide⟩
    | cons kv kvs' =>
      exact ⟨'\x7b', stringifyFields kv kvs' ++ ['\x7d'], by simp [stringifyChars],
        by decide, by decide⟩

/-! ### Fuel bounds -/

mutual

theorem pfuel_le (v : Json) : pfuel v ≤ (stringifyChars v).length := by
  cases v with
  | null => simp [pfuel, stringifyChars]
  | bool b => cases b <;> simp [pfuel, stringifyChars]
  | num n =>
    have h1 : 1 ≤ (intChars n).length :=
      List.length_pos.mpr (intChars_ne_nil n)
    simp only [pfuel, stringifyChars]
    omega
  | str s =>
    simp [pfuel, stringifyChars, quoteChars]
  | arr xs =>
    cases xs with
    | nil => simp [pfuel, stringifyChars]
    | cons x xs' =>
      have h := pfuelElems_le x xs'
      simp only [pfuel, stringifyChars, List.length_cons, List.length_append,
        List.length_singleton]
      omega
  | obj kvs =>
    cases kvs with
    | nil => simp [pfuel, stringifyChars]
    | cons kv kvs' =>
      have h := pfuelFields_le kv kvs'
      simp only [pfuel, stringifyChars, List.length_cons, List.length_append,
        List.length_singleton]
      omega
termination_by sizeOf v
decreasing_by all_goals (simp_wf; try omega)

theorem pfuelElems_le (x : Json) (xs : List Json) :
    pfuelElems x xs ≤ (stringifyElems x xs).length + 1 := by
  cases xs with
  | nil =>
    have h := pfuel_le x
    simp only [pfuelElems, stringifyElems]
    omega
  | cons y ys =>
    have h1 := pfuel_le x
    have h2 := pfuelElems_le y ys
    simp only [pfuelElems, stringifyElems, List.length_append, List.length_cons]
    omega
termination_by sizeOf x + sizeOf xs
decreasing_by all_goals (simp_wf; try omega)

theorem pfuelFields_le (kv : String × Json) (kvs : List (String × Json)) :
    pfuelFields kv kvs ≤ (stringifyFields kv kvs).length + 1 := by
  obtain ⟨k, v⟩ := kv
  cases kvs with
  | nil =>
    have h := pfuel_le v
    simp only [pfuelFields, stringifyFields, List.length_append, List.length_cons]
    omega
  | cons kv2 kvs2 =>
    have h1 := pfuel_le v
    have h2 := pfuelFields_le kv2 kvs2
    simp only [pfuelFields, stringifyFields, List.length_append, List.length_cons]
    omega
termination_by sizeOf kv + sizeOf kvs
decreasing_by all_goals (simp_wf; try omega)

end

theorem pfuel_pos (v : Json) : 1 ≤ pfuel v := by
  cases v with
  | arr xs => cases xs <;> simp [pfuel]
  | obj kvs => cases kvs <;> simp [pfuel]
  | _ => simp [pfuel]

theorem pfuelElems_pos (x : Json) (xs : List Json) : 1 ≤ pfuelElems x xs := by
  cases xs <;> (simp [pfuelElems]; try omega)

theorem pfuelFields_pos (kv : String × Json) (kvs : List (String × Json)) :
    1 ≤ pfuelFields kv kvs := by
  obtain ⟨k, v⟩ := kv
  cases kvs <;> (simp [pfuelFields]; try omega)

/-! ### Parser dispatch lemmas -/

theorem parseVal_succ_digit (f : Nat) (c : Char) (cs : List Char)
    (h : c = '-' ∨ isDigitChar c = true) :
    parseVal (f + 1) (c :: cs) = parseNum (c :: cs) := by
  have hb : c.toNat = 45 ∨ (48 ≤ c.toNat ∧ c.toNat ≤ 57) := by
    rcases h with rfl | hd
    · exact Or.inl (by decide)
    · exact Or.inr (isDigitChar_iff.mp hd)
  have h1 : ¬c = 'n' := ne_of_toNat_ne
    (by
      have e : ('n').toNat = 110 := by decide
      rcases hb with hc | hc <;> omega)
  have h2 : ¬c = 't' := ne_of_toNat_ne
    (by
      have e : ('t').toNat = 116 := by decide
      rcases hb with hc | hc <;> omega)
  have h3 : ¬c = 'f' := ne_of_toNat_ne
    (by
      have e : ('f').toNat = 102 := by decide
      rcases hb with hc | hc <;> omega)
  have h4 : ¬c = '"' := ne_of_toNat_ne
    (by
      have e : ('"').toNat = 34 := by decide
      rcases hb with hc | hc <;> omega)
  have h5 : ¬c = '[' := ne_of_toNat_ne
    (by
      have e : ('[').toNat = 91 := by decide
      rcases hb with hc | hc <;> omega)
  have h6 : ¬c = '\x7b' := ne_of_toNat_ne
    (by
      have e : ('\x7b').toNat = 123 := by decide
      rcases hb with hc | hc <;> omega)
  simp only [parseVal]
  simp [h1, h2, h3, h4, h5, h6, h]

theorem parseVal_succ_arrE (f : Nat) (c2 : Char) (cs : List Char) (h : ¬c2 = ']')
    (xs : List Json) (r : List Char)
    (hp : parseElems f (c2 :: cs) = some (xs, r)) :
    parseVal (f + 1) ('[' :: c2 :: cs) = some (.arr xs, r) := by
  simp only [parseVal]
  simp [h, hp]

theorem parseVal_succ_objE (f : Nat) (c2 : Char) (cs : List Char) (h : ¬c2 = '\x7d')
    (kvs : List (String × Json)) (r : List Char)
    (hp : parseFields f (c2 :: cs) = some (kvs, r)) :
    parseVal (f + 1) ('\x7b' :: c2 :: cs) = some (.obj kvs, r) := by
  simp only [parseVal]
  simp [h, hp]

/-! ### The round trip: parsing a rendering returns the value -/

mutual

theorem parseVal_stringify : ∀ (v : Json) (fuel : Nat) (rest : List Char),
    pfuel v ≤ fuel → restOk rest = true →
    parseVal fuel (stringifyChars v ++ rest) = some (v, rest)
  | v, 0, _, hfuel, _ => by
    have := pfuel_pos v
    omega
  | .null, f + 1, rest, _, _ => by
    rw [show stringifyChars .null = ['n', 'u', 'l', 'l'] by simp [stringifyChars]]
    rfl
  | .bool true, f + 1, rest, _, _ => by
    rw [show stringifyChars (.bool true) = ['t', 'r', 'u', 'e'] by
      simp [stringifyChars]]
    rfl
  | .bool false, f + 1, rest, _, _ => by
    rw [show stringifyChars (.bool false) = ['f', 'a', 'l', 's', 'e'] by
      simp [stringifyChars]]
    rfl
  | .num n, f + 1, rest, _, hrest => by
    rw [show stringifyChars (.num n) = intChars n by simp [stringifyChars]]
    have hgoal := parseNum_intChars n rest hrest
    by_cases hn : n < 0
    · rw [intChars, if_pos hn, List.cons_append] at hgoal ⊢
      rw [parseVal_succ_digit f '-' _ (Or.inl rfl)]
      exact hgoal
    · obtain ⟨d, ds, hcons⟩ := List.exists_cons_of_ne_nil (natChars_ne_nil n.toNat)
      have hd : isDigitChar d = true := by
        apply natChars_digits n.toNat
        rw [hcons]
        simp
      rw [intChars, if_neg hn, hcons, List.cons_append] at hgoal ⊢
      rw [parseVal_succ_digit f d _ (Or.inr hd)]
      exact hgoal
  | .str s, f + 1, rest, _, _ => by
    rw [show stringifyChars (.str s) = quoteChars s.data by simp [stringifyChars]]
    rw [quoteChars]
    simp only [List.cons_append, List.append_assoc, List.singleton_append]
    have hu := unescape_escape s.data rest
    simp [parseVal, hu]
  | .arr [], f + 1, rest, _, _ => by
    rw [show stringifyChars (.arr []) = ['[', ']'] by simp [stringifyChars]]
    rfl
  | .arr (x :: xs), f + 1, rest, hfuel, _ => by
    have hfe : pfuelElems x xs ≤ f := by
      have h1 : pfuel (.arr (x :: xs)) = 1 + pfuelElems x xs := by simp [pfuel]
      omega
    obtain ⟨c2, cs2, hc2, hne2, _⟩ := stringifyChars_head_ne x
    obtain ⟨T, hT⟩ := stringifyElems_eq_append x xs
    have hE : stringifyElems x xs = c2 :: (cs2 ++ T) := by
      rw [hT, hc2, List.cons_append]
    have hp : parseElems f (stringifyElems x xs ++ ']' :: rest) =
        some (x :: xs, rest) :=
      parseElems_stringify x xs f rest hfe
    rw [hE, List.cons_append] at hp
    rw [show stringifyChars (.arr (x :: xs)) =
        '[' :: (stringifyElems x xs ++ [']']) by simp [stringifyChars]]
    rw [List.cons_append, List.append_assoc, List.singleton_append, hE,
      List.cons_append]
    exact parseVal_succ_arrE f c2 _ hne2 _ _ hp
  | .obj [], f + 1, rest, _, _ => by
    rw [show stringifyChars (.obj []) = ['\x7b', '\x7d'] by simp [stringifyChars]]
    rfl
  | .obj (kv :: kvs), f + 1, rest, hfuel, _ => by
    have hff : pfuelFields kv kvs ≤ f := by
      have h1 : pfuel (.obj (kv :: kvs)) = 1 + pfuelFields kv kvs := by simp [pfuel]
      omega
    obtain ⟨T, hT⟩ := stringifyFields_head kv kvs
    have hp : parseFields f (stringifyFields kv kvs ++ '\x7d' :: rest) =
        some (kv :: kvs, rest) :=
      parseFields_stringify kv kvs f rest hff
    rw [hT, List.cons_append] at hp
    rw [show stringifyChars (.obj (kv :: kvs)) =
        '\x7b' :: (stringifyFields kv kvs ++ ['\x7d']) by simp [stringifyChars]]
    rw [List.cons_append, List.append_assoc, List.singleton_append, hT,
      List.cons_append]
    exact parseVal_succ_objE f '"' _ (by decide) _ _ hp
termination_by v _ _ => sizeOf v
decreasing_by all_goals (simp_wf; try omega)

theorem parseElems_stringify : ∀ (x : Json) (xs : List Json) (fuel : Nat)
    (rest : List Char), pfuelElems x xs ≤ fuel →
    parseElems fuel (stringifyElems x xs ++ ']' :: rest) = some (x :: xs, rest)
  | x, xs, 0, _, hfuel => by
    have := pfuelElems_pos x xs
    omega
  | x, [], f + 1, rest, hfuel => by
    have hx : pfuel x ≤ f := by
      simp only [pfuelElems] at hfuel
      omega
    rw [show stringifyElems x [] = stringifyChars x by simp [stringifyElems]]
    have hv := parseVal_stringify x f (']' :: rest) hx (restOk_rsq rest)
    simp [parseElems, hv]
  | x, y :: ys, f + 1, rest, hfuel => by
    have hx : pfuel x ≤ f := by
      simp only [pfuelElems] at hfuel
      omega
    have hys : pfuelElems y ys ≤ f := by
      simp only [pfuelElems] at hfuel
      omega
    rw [show stringifyElems x (y :: ys) =
        stringifyChars x ++ ',' :: stringifyElems y ys by simp [stringifyElems]]
    rw [List.append_assoc, List.cons_append]
    have hv := parseVal_stringify x f
      (',' :: (stringifyElems y ys ++ ']' :: rest)) hx (restOk_comma _)
    have hi := parseElems_stringify y ys f rest hys
    simp [parseElems, hv, hi]
termination_by x xs _ _ => sizeOf x + sizeOf xs
decreasing_by all_goals (simp_wf; try omega)

theorem parseFields_stringify : ∀ (kv : String × Json)
    (kvs : List (String × Json)) (fuel : Nat) (rest : List Char),
    pfuelFields kv kvs ≤ fuel →
    parseFields fuel (stringifyFields kv kvs ++ '\x7d' :: rest) =
      some (kv :: kvs, rest)
  | kv, kvs, 0, _, hfuel => by
    have := pfuelFields_pos kv kvs
    omega
  | (k, v), [], f + 1, rest, hfuel => by
    have hv : pfuel v ≤ f := by
      simp only [pfuelFields] at hfuel
      omega
    rw [show stringifyFields (k, v) [] =
        quoteChars k.data ++ ':' :: stringifyChars v by simp [stringifyFields]]
    rw [quoteChars]
    simp only [List.cons_append, List.append_assoc, List.singleton_append]
    have hu := unescape_escape k.data (':' :: (stringifyChars v ++ '\x7d' :: rest))
    have hpv := parseVal_stringify v f ('\x7d' :: rest) hv (restOk_rbrace rest)
    simp [parseFields, hu, hpv]
  | (k, v), kv2 :: kvs2, f + 1, rest, hfuel => by
    have hv : pfuel v ≤ f := by
      simp only [pfuelFields] at hfuel
      omega
    have hkvs : pfuelFields kv2 kvs2 ≤ f := by
      simp only [pfuelFields] at hfuel
      omega
    rw [show stringifyFields (k, v) (kv2 :: kvs2) =
        quoteChars k.data ++ ':' :: stringifyChars v ++
          ',' :: stringifyFields kv2 kvs2 by simp [stringifyFields]]
    rw [quoteChars]
    simp only [List.cons_append, List.append_assoc, List.singleton_append]
    have hu := unescape_escape k.data
      (':' :: (stringifyChars v ++
        ',' :: (stringifyFields kv2 kvs2 ++ '\x7d' :: rest)))
    have hpv := parseVal_stringify v f
      (',' :: (stringifyFields kv2 kvs2 ++ '\x7d' :: rest)) hv (restOk_comma _)
    have hi := parseFields_stringify kv2 kvs2 f rest hkvs
    simp [parseFields, hu, hpv, hi]
termination_by kv kvs _ _ => sizeOf kv + sizeOf kvs
decreasing_by all_goals (simp_wf; try omega)

end

/-- The end-to-end round trip: `JSON.parse` applied to the text
`JSON.stringify` produced for a value yields that value back. -/
theorem Json.parse_stringify (v : Json) : Json.parse (Json.stringify v) = some v := by
  have hlen := pfuel_le v
  have h := parseVal_stringify v ((stringifyChars v).length + 1) [] (by omega) rfl
  rw [List.append_nil] at h
  unfold Json.parse Json.stringify
  simp [h]

/-! ### Association list lemmas -/

theorem lookup_eq_none_iff {β : Type} (l : List (String × β)) (k : String) :
    l.lookup k = none ↔ ∀ v, (k, v) ∉ l := by
  induction l with
  | nil => simp
  | cons kv t ih =>
    obtain ⟨k0, v0⟩ := kv
    by_cases hk : k = k0
    · subst hk
      simp only [List.lookup, beq_self_eq_true]
      constructor
      · intro h
        cases h
      · intro h
        exact False.elim ((h v0) (List.mem_cons_self _ _))
    · rw [show List.lookup k ((k0, v0) :: t) = List.lookup k t by
        simp [List.lookup, show (k == k0) = false by simp [hk]]]
      simp only [List.mem_cons, not_or, ih]
      constructor
      · intro h v
        exact ⟨fun he => hk (congrArg Prod.fst he), h v⟩
      · intro h v
        exact (h v).2

theorem mem_of_lookup_eq_some {β : Type} {ps : List (String × β)} {key : String}
    {val : β} (h : ps.lookup key = some val) : (key, val) ∈ ps := by
  induction ps with
  | nil => simp [List.lookup] at h
  | cons hd tl ih =>
    obtain ⟨k0, v0⟩ := hd
    by_cases hk : key = k0
    · subst hk
      simp only [List.lookup, beq_self_eq_true] at h
      injection h with h
      subst h
      simp
    · rw [show List.lookup key ((k0, v0) :: tl) = List.lookup key tl by
        simp [List.lookup, show (key == k0) = false by simp [hk]]] at h
      exact List.mem_cons_of_mem _ (ih h)

theorem mem_eq_of_keys_nodup {β : Type} {l : List (String × β)} {k : String}
    {v w : β} (hnd : (l.map Prod.fst).Nodup) (h1 : (k, v) ∈ l)
    (h2 : (k, w) ∈ l) : v = w := by
  induction l with
  | nil => simp at h1
  | cons kv t ih =>
    obtain ⟨k0, v0⟩ := kv
    simp only [List.map_cons, List.nodup_cons] at hnd
    rcases List.mem_cons.mp h1 with he1 | h1t
    · rcases List.mem_cons.mp h2 with he2 | h2t
      · exact ((Prod.mk.injEq _ _ _ _).mp (he1.trans he2.symm)).2
      · exfalso
        apply hnd.1
        have hk : k0 = k := (congrArg Prod.fst he1).symm
        subst hk
        exact List.mem_map.mpr ⟨(k0, w), h2t, rfl⟩
    · rcases List.mem_cons.mp h2 with he2 | h2t
      · exfalso
        apply hnd.1
        have hk : k0 = k := (congrArg Prod.fst he2).symm
        subst hk
        exact List.mem_map.mpr ⟨(k0, v), h1t, rfl⟩
      · exact ih hnd.2 h1t h2t

theorem lookup_map_ite {β : Type} (l : List (String × β)) (event : String)
    (f : β → β) :
    (l.map fun kv => if kv.1 = event then (kv.1, f kv.2) else kv).lookup event =
      (l.lookup event).map f := by
  induction l with
  | nil => simp
  | cons kv t ih =>
    obtain ⟨k0, v0⟩ := kv
    by_cases hk : k0 = event
    · subst hk
      rw [List.map_cons, show (if (k0, v0).1 = k0 then ((k0, v0).1, f (k0, v0).2)
        else (k0, v0)) = (k0, f v0) by simp]
      simp [List.lookup]
    · simp only [List.map_cons, if_neg hk]
      rw [show List.lookup event ((k0, v0) :: (t.map fun kv =>
          if kv.1 = event then (kv.1, f kv.2) else kv)) = List.lookup event
          (t.map fun kv => if kv.1 = event then (kv.1, f kv.2) else kv) by
        simp [List.lookup, show (event == k0) = false by simp [Ne.symm hk]]]
      rw [show List.lookup event ((k0, v0) :: t) = List.lookup event t by
        simp [List.lookup, show (event == k0) = false by simp [Ne.symm hk]]]
      exact ih

theorem lookup_append_of_none {β : Type} (l l' : List (String × β)) (k : String)
    (h : l.lookup k = none) : (l ++ l').lookup k = l'.lookup k := by
  induction l with
  | nil => simp
  | cons kv t ih =>
    obtain ⟨k0, v0⟩ := kv
    by_cases hk : k = k0
    · subst hk
      simp [List.lookup] at h
    · rw [List.cons_append]
      rw [show List.lookup k ((k0, v0) :: (t ++ l')) = List.lookup k (t ++ l') by
        simp [List.lookup, show (k == k0) = false by simp [hk]]]
      rw [show List.lookup k ((k0, v0) :: t) = List.lookup k t by
        simp [List.lookup, show (k == k0) = false by simp [hk]]] at h
      exact ih h

theorem map_eq_self_of_keys_ne {β : Type} (l : List (String × β))
    (event : String) (f : β → β) (h : ∀ kv ∈ l, kv.1 ≠ event) :
    (l.map fun kv => if kv.1 = event then (kv.1, f kv.2) else kv) = l := by
  induction l with
  | nil => simp
  | cons kv t ih =>
    simp only [List.map_cons, if_neg (h kv (by simp))]
    rw [ih (fun kv hkv => h kv (by simp [hkv]))]

theorem map_erase_eq_self (l : List (String × List Nat)) (event : String)
    (h : Nat) (hits : ∀ kv ∈ l, kv.1 = event → h ∉ kv.2) :
    (l.map fun kv => if kv.1 = event then (kv.1, kv.2.erase h) else kv) = l := by
  induction l with
  | nil => simp
  | cons kv t ih =>
    obtain ⟨k0, v0⟩ := kv
    have iht := ih (fun kv hkv => hits kv (by simp [hkv]))
    by_cases hk : k0 = event
    · have hnin : h ∉ v0 := hits (k0, v0) (by simp) hk
      simp only [List.map_cons, if_pos hk, List.erase_of_not_mem hnin, iht]
    · simp only [List.map_cons, if_neg hk, iht]

/-! ### The claims -/

/-- C8: for every frame whose parsed JSON object omits the `body` key, the
produced message has `body` equal to the empty object and `rawBody` equal
to the empty string. -/
theorem claim8_missing_body (raw : List (String × Json)) (now : Int)
    (h : ∀ v, ("body", v) ∉ raw) :
    (decodeFrame raw now).body = Json.obj [] ∧
      (decodeFrame raw now).rawBody = "" := by
  have hl : raw.lookup "body" = none := (lookup_eq_none_iff raw "body").mpr h
  constructor
  · simp [decodeFrame, hl, jsNullish]
  · simp [decodeFrame, hl]

/-- C8 witness: a concrete frame with only a `query` field. -/
theorem claim8_witness :
    (decodeFrame [("query", Json.obj [])] 0).body = Json.obj [] ∧
      (decodeFrame [("query", Json.obj [])] 0).rawBody = "" :=
  claim8_missing_body [("query", Json.obj [])] 0 (by simp)

/-- C10: for every frame whose parsed JSON object contains the key `body`
with the JSON value `null`, and every decode time, the produced message's
`body` is the empty object while its `rawBody` is the string `"null"`;
re-parsing that `rawBody` yields `null`, which is not equal to the
message's `body`. -/
theorem claim10_null_body (raw : List (String × Json)) (now : Int)
    (h : raw.lookup "body" = some Json.null) :
    (decodeFrame raw now).body = Json.obj [] ∧
      (decodeFrame raw now).rawBody = "null" ∧
      Json.parse ((decodeFrame raw now).rawBody) = some Json.null ∧
      Json.parse ((decodeFrame raw now).rawBody) ≠
        some ((decodeFrame raw now).body) := by
  have hb : (decodeFrame raw now).body = Json.obj [] := by
    simp [decodeFrame, h, jsNullish]
  have hr : (decodeFrame raw now).rawBody = "null" := by
    simp only [decodeFrame, h, Json.stringify]
    rw [show stringifyChars Json.null = ['n', 'u', 'l', 'l'] by
      simp [stringifyChars]]
  refine ⟨hb, hr, ?_, ?_⟩
  · rw [hr]
    rfl
  · rw [hr, hb, show Json.parse "null" = some Json.null from rfl]
    exact fun hcontra => Json.noConfusion (Option.some.inj hcontra)

/-- C10 witness: the concrete frame carrying only `body: null`, decoded at
time zero. -/
theorem claim10_witness :
    (decodeFrame [("body", Json.null)] 0).body = Json.obj [] ∧
      (decodeFrame [("body", Json.null)] 0).rawBody = "null" ∧
      Json.parse ((decodeFrame [("body", Json.null)] 0).rawBody) =
        some Json.null ∧
      Json.parse ((decodeFrame [("body", Json.null)] 0).rawBody) ≠
        some ((decodeFrame [("body", Json.null)] 0).body) :=
  claim10_null_body [("body", Json.null)] 0 rfl

/-- C1 counterexample: on the frame `{"body": null}` the `rawBody` text
re-parses to `null`, but the message's `body` is the empty object, so the
claimed equivalence between `parse rawBody = B` and
`parse rawBody = message.body` fails. -/
theorem claim1_counterexample :
    Json.parse ((decodeFrame [("body", Json.null)] 0).rawBody) = some Json.null ∧
      (decodeFrame [("body", Json.null)] 0).body = Json.obj [] ∧
      Json.parse ((decodeFrame [("body", Json.null)] 0).rawBody) ≠
        some ((decodeFrame [("body", Json.null)] 0).body) := by
  have hr : (decodeFrame [("body", Json.null)] 0).rawBody = "null" := by
    simp only [decodeFrame, List.lookup, beq_self_eq_true, Json.stringify]
    rw [show stringifyChars Json.null = ['n', 'u', 'l', 'l'] by
      simp [stringifyChars]]
  have hb : (decodeFrame [("body", Json.null)] 0).body = Json.obj [] := by
    simp [decodeFrame, jsNullish, List.lookup]
  refine ⟨by rw [hr]; rfl, hb, ?_⟩
  rw [hr, hb, show Json.parse "null" = some Json.null from rfl]
  exact fun h => Json.noConfusion (Option.some.inj h)

/-- C1 (amended): for every frame whose parsed JSON object contains a
`body` value `B`, re-parsing the produced `rawBody` yields exactly `B`;
when `B` is not `null` this value is also the message's `body`, so the
spec's re-parse invariant holds for every non-`null` body. -/
theorem claim1_body_roundtrip (raw : List (String × Json)) (now : Int)
    (b : Json) (h : raw.lookup "body" = some b) :
    Json.parse ((decodeFrame raw now).rawBody) = some b ∧
      (b ≠ Json.null →
        Json.parse ((decodeFrame raw now).rawBody) =
          some ((decodeFrame raw now).body)) := by
  have hr : (decodeFrame raw now).rawBody = Json.stringify b := by
    simp [decodeFrame, h]
  have hbody : b ≠ Json.null → (decodeFrame raw now).body = b := by
    intro hne
    have hj : jsNullish (some b) (Json.obj []) = b := by
      cases b with
      | null => exact absurd rfl hne
      | bool b' => rfl
      | num n => rfl
      | str s => rfl
      | arr xs => rfl
      | obj kvs => rfl
    simp [decodeFrame, h, hj]
  constructor
  · rw [hr]
    exact Json.parse_stringify b
  · intro hne
    rw [hr, hbody hne]
    exact Json.parse_stringify b

/-- C1 witness: a concrete frame with body `true`. -/
theorem claim1_witness :
    Json.parse ((decodeFrame [("body", Json.bool true)] 0).rawBody) =
        some (Json.bool true) ∧
      (Json.bool true ≠ Json.null →
        Json.parse ((decodeFrame [("body", Json.bool true)] 0).rawBody) =
          some ((decodeFrame [("body", Json.bool true)] 0).body)) :=
  claim1_body_roundtrip [("body", Json.bool true)] 0 (Json.bool true) rfl

/-- C2: a top-level frame field whose key is not `body`, `query` or
`timestamp` appears in the message's `headers` exactly when its value is a
JSON string, and then with that string value; non-string fields are
dropped, never coerced. -/
theorem claim2_headers_iff (raw : List (String × Json)) (now : Int)
    (k : String) (v : Json) (hnd : (raw.map Prod.fst).Nodup)
    (hmem : (k, v) ∈ raw) (hb : k ≠ "body") (hq : k ≠ "query")
    (ht : k ≠ "timestamp") (s : String) :
    ((k, s) ∈ (decodeFrame raw now).headers ↔ v = Json.str s) := by
  have hh : (decodeFrame raw now).headers =
      (raw.filter fun kv =>
          kv.1 != "body" && kv.1 != "query" && kv.1 != "timestamp").filterMap
        fun kv => match kv.2 with
          | Json.str s => some (kv.1, s)
          | _ => none := by
    simp [decodeFrame]
  rw [hh, List.mem_filterMap]
  constructor
  · rintro ⟨⟨k1, v1⟩, hmem1, hf⟩
    cases v1 with
    | str s1 =>
      simp only [Option.some.injEq, Prod.mk.injEq] at hf
      obtain ⟨hk1, hs1⟩ := hf
      rw [hk1, hs1] at hmem1
      have hmemraw : (k, Json.str s) ∈ raw := (List.mem_filter.mp hmem1).1
      exact mem_eq_of_keys_nodup hnd hmem hmemraw
    | null => simp at hf
    | bool b1 => simp at hf
    | num n1 => simp at hf
    | arr xs1 => simp at hf
    | obj kvs1 => simp at hf
  · intro hv
    subst hv
    refine ⟨(k, Json.str s), ?_, by simp⟩
    rw [List.mem_filter]
    exact ⟨hmem, by simp [hb, hq, ht]⟩

/-- C2 witness: a concrete frame with one string header field. -/
theorem claim2_witness :
    (("x-github-event", "push") ∈
        (decodeFrame [("body", Json.obj []), ("x-github-event", Json.str "push"),
          ("n", Json.num 1)] 0).headers ↔
      Json.str "push" = Json.str "push") :=
  claim2_headers_iff _ 0 "x-github-event" (Json.str "push") (by simp)
    (by simp) (by decide) (by decide) (by decide) "push"

/-- C3 (amended): while a transport exists, a transport error event makes
the session publish exactly one `error` event, leaving the state
unchanged; the published error's message is the event's `message` field
when present and the fixed fallback text `"EventSource error"` otherwise,
and the original event is attached as the `cause`. -/
theorem claim3_error_fallback (s : ClientState) (e : ESErrorEvent)
    (h : s.es.isSome = true) :
    (step s (.esError e)).2 =
        [SmeeEvent.error { message := e.message.getD "EventSource error",
                           cause := some e }] ∧
      (step s (.esError e)).1 = s ∧
      (∀ m, e.message = some m → e.message.getD "EventSource error" = m) ∧
      (e.message = none →
        e.message.getD "EventSource error" = "EventSource error") := by
  refine ⟨by simp [step, h], by simp [step, h], ?_, ?_⟩
  · intro m hm
    rw [hm]
    rfl
  · intro hm
    rw [hm]
    rfl

/-- C3 counterexample: a transport error without a `message` field is
published with the fallback text `"EventSource error"`, not the
`"stream error"` text the claim states. -/
theorem claim3_counterexample :
    (step { es := some 0, nextId := 1, closedIds := [] }
        (.esError ⟨none⟩)).2 =
      [SmeeEvent.error { message := "EventSource error", cause := some ⟨none⟩ }] ∧
      "EventSource error" ≠ "stream error" := by
  exact ⟨rfl, by decide⟩

/-- C3 witness: a connected state and an error event carrying a message. -/
theorem claim3_witness :
    (step { es := some 0, nextId := 1, closedIds := [] }
        (.esError ⟨some "boom"⟩)).2 =
        [SmeeEvent.error { message := (some "boom").getD "EventSource error",
                           cause := some ⟨some "boom"⟩ }] ∧
      (step { es := some 0, nextId := 1, closedIds := [] }
        (.esError ⟨some "boom"⟩)).1 =
        { es := some 0, nextId := 1, closedIds := [] } ∧
      (∀ m, (some "boom" : Option String) = some m →
        (some "boom" : Option String).getD "EventSource error" = m) ∧
      ((some "boom" : Option String) = none →
        (some "boom" : Option String).getD "EventSource error" =
          "EventSource error") :=
  claim3_error_fallback { es := some 0, nextId := 1, closedIds := [] }
    ⟨some "boom"⟩ rfl

/-- C4 counterexample: with two callbacks registered, the first of which
throws, `#emit`'s `forEach` loop stops — the second callback is never
invoked, so a throwing callback does prevent subsequent callbacks. -/
theorem claim4_counterexample :
    (forEachThrow [0, 1] fun n =>
        if n = 0 then Except.error "boom" else Except.ok ()).1 = [0] ∧
      1 ∉ (forEachThrow [0, 1] fun n =>
        if n = 0 then Except.error "boom" else Except.ok ()).1 := by
  exact ⟨rfl, by decide⟩

/-- C4 (amended): when a callback throws during a publish, every callback
registered before it has already been invoked, the thrower itself is
invoked, and no callback registered after it is invoked — the exception
escapes the fan-out instead of being isolated. -/
theorem claim4_throw_stops {ε : Type} (hs1 : List Nat) (h : Nat)
    (hs2 : List Nat) (beh : Nat → Except ε Unit) (e : ε)
    (hok : ∀ x ∈ hs1, beh x = Except.ok ())
    (herr : beh h = Except.error e) :
    forEachThrow (hs1 ++ h :: hs2) beh = (hs1 ++ [h], some e) := by
  induction hs1 with
  | nil => simp [forEachThrow, herr]
  | cons a t ih =>
    have ha : beh a = Except.ok () := hok a (by simp)
    have iht := ih (fun x hx => hok x (by simp [hx]))
    simp [forEachThrow, ha, iht]

/-- C4 witness: one succeeding callback, then a thrower, then one more
callback; the third is not invoked. -/
theorem claim4_witness :
    forEachThrow ([5] ++ 0 :: [7]) (fun n =>
        if n = 0 then Except.error "boom" else Except.ok ()) =
      ([5] ++ [0], some "boom") :=
  claim4_throw_stops [5] 0 [7] _ "boom"
    (by
      intro x hx
      simp only [List.mem_singleton] at hx
      subst hx
      rfl)
    rfl

/-- C5: while a transport handle exists, `start()` is a no-op — the state
is unchanged and nothing is published; consequently two consecutive
`start()` calls are indistinguishable from one, and starting then opening
the transport publishes exactly one `open` event whether `start()` was
called once or twice. -/
theorem claim5_start_noop (s : ClientState) :
    (s.es.isSome = true → step s .start = (s, [])) ∧
      (run s [.start, .start]).1 = (run s [.start]).1 ∧
      (run s [.start, .start]).2 = (run s [.start]).2 ∧
      (s.es = none → (run s [.start, .esOpen]).2 = [.opened] ∧
        (run s [.start, .start, .esOpen]).2 = [.opened]) := by
  obtain ⟨es, nextId, closedIds⟩ := s
  cases es with
  | some i =>
    exact ⟨fun _ => rfl, rfl, rfl, fun h => absurd h (by simp)⟩
  | none =>
    exact ⟨fun h => absurd h (by simp), rfl, rfl, fun _ => ⟨rfl, rfl⟩⟩

/-- C5 witness: a connected state, and a fresh client started twice. -/
theorem claim5_witness :
    step { es := some 0, nextId := 1, closedIds := [] } .start =
        ({ es := some 0, nextId := 1, closedIds := [] }, []) ∧
      (run { es := none, nextId := 0, closedIds := [] }
        [.start, .start, .esOpen]).2 = [.opened] :=
  ⟨(claim5_start_noop { es := some 0, nextId := 1, closedIds := [] }).1 rfl,
    ((claim5_start_noop { es := none, nextId := 0, closedIds := [] }).2.2.2
      rfl).2⟩

/-- C6: every `stop()` publishes exactly one `close` event and leaves the
session without a transport handle; a previously held handle is closed,
and a subsequent `start()` opens a brand-new transport (the fresh handle,
distinct from any previously issued one). -/
theorem claim6_stop_close (s : ClientState) :
    (step s .stop).2 = [SmeeEvent.close] ∧
      (step s .stop).1.es = none ∧
      (∀ i, s.es = some i → i ∈ (step s .stop).1.closedIds) ∧
      (step (step s .stop).1 .start).1.es = some s.nextId ∧
      (∀ i, s.es = some i → i < s.nextId →
        (step (step s .stop).1 .start).1.es ≠ some i) := by
  obtain ⟨es, nextId, closedIds⟩ := s
  cases es with
  | some j =>
    refine ⟨rfl, rfl, ?_, rfl, ?_⟩
    · intro i hi
      have hj : j = i := by simpa using hi
      subst hj
      simp [step]
    · intro i hi hlt heq
      have hj : j = i := by simpa using hi
      subst hj
      have h2 : nextId = j := by simpa [step] using heq
      have h3 : j < nextId := by simpa using hlt
      omega
  | none =>
    refine ⟨rfl, rfl, ?_, rfl, ?_⟩
    · intro i hi
      simp at hi
    · intro i hi
      simp at hi

/-- C6 witness: stopping a connected client records the closed handle and
restarting yields a different handle. -/
theorem claim6_witness :
    3 ∈ (step { es := some 3, nextId := 7, closedIds := [] } .stop).1.closedIds ∧
      (step (step { es := some 3, nextId := 7, closedIds := [] } .stop).1
        .start).1.es ≠ some 3 :=
  ⟨(claim6_stop_close { es := some 3, nextId := 7, closedIds := [] }).2.2.1
      3 rfl,
    (claim6_stop_close { es := some 3, nextId := 7, closedIds := [] }).2.2.2.2
      3 rfl (by decide)⟩

/-- C7 (amended): `createChannel` fails exactly when the redirect-target
header is absent or its value is the empty string (JavaScript's falsy
check), and returns the header's value as the channel address whenever it
is present and non-empty. -/
theorem claim7_location_guard (res : FetchResponse) :
    ((∃ msg, createChannel res = .error msg) ↔
        (headersGet "location" res.headers = none ∨
          headersGet "location" res.headers = some "")) ∧
      (∀ l, headersGet "location" res.headers = some l → l ≠ "" →
        createChannel res = .ok l) := by
  constructor
  · cases hres : headersGet "location" res.headers with
    | none => simp [createChannel, hres]
    | some l =>
      by_cases hl : l = ""
      · subst hl
        simp [createChannel, hres]
      · simp [createChannel, hres, hl]
  · intro l hl hne
    simp [createChannel, hl, hne]

/-- C7 counterexample: a response that does carry a `location` header, but
with the empty string as its value, still makes `createChannel` fail —
refuting "fails if and only if the header is absent". -/
theorem claim7_counterexample :
    headersGet "location" [("location", "")] = some "" ∧
      createChannel ⟨[("location", "")]⟩ =
        .error "Failed to create new Smee channel" := by
  exact ⟨rfl, rfl⟩

/-- C7 witness: a response carrying a non-empty channel address. -/
theorem claim7_witness :
    createChannel ⟨[("location", "https://smee.io/abc")]⟩ =
      .ok "https://smee.io/abc" :=
  (claim7_location_guard ⟨[("location", "https://smee.io/abc")]⟩).2
    "https://smee.io/abc" rfl (by decide)

/-- C9: from any reachable registry, subscribing a callback and then
unsubscribing the same callback reference leaves it out of the invocation
list of every subsequent publish of that kind, and unsubscribing a
callback that is not registered changes nothing (a no-op, not an
error). -/
theorem claim9_on_off (d : Dispatcher) (event : String) (h : Nat)
    (hwf : d.WF) :
    h ∉ ((d.on event h).off event h).emitInvoked event ∧
      (h ∉ d.emitInvoked event → d.off event h = d) := by
  constructor
  · cases hl : d.handlers.lookup event with
    | none =>
      have hon : (d.on event h).handlers = d.handlers ++ [(event, [h])] := by
        simp [Dispatcher.on, hl]
      have hlook2 : (d.on event h).handlers.lookup event = some [h] := by
        rw [hon, lookup_append_of_none _ _ _ hl]
        simp [List.lookup]
      have hoff : ((d.on event h).off event h).handlers.lookup event =
          some ([h].erase h) := by
        have hmi := lookup_map_ite (d.on event h).handlers event
          (fun x => x.erase h)
        rw [hlook2] at hmi
        exact hmi
      simp [Dispatcher.emitInvoked, hoff]
    | some l =>
      have hentry : (event, l) ∈ d.handlers := mem_of_lookup_eq_some hl
      have hndl : l.Nodup := hwf.2 (event, l) hentry
      have hon : (d.on event h).handlers.lookup event =
          some (if h ∈ l then l else l ++ [h]) := by
        have hsome : (d.handlers.lookup event).isSome = true := by
          rw [hl]
          rfl
        have hmi := lookup_map_ite d.handlers event
          (fun x => if h ∈ x then x else x ++ [h])
        rw [hl] at hmi
        rw [show (d.on event h).handlers = d.handlers.map (fun kv =>
          if kv.1 = event then (kv.1, if h ∈ kv.2 then kv.2 else kv.2 ++ [h])
          else kv) by simp [Dispatcher.on, hsome]]
        exact hmi
      have hnd2 : (if h ∈ l then l else l ++ [h]).Nodup := by
        by_cases hm : h ∈ l
        · simpa [hm] using hndl
        · simp [hm, List.nodup_append, hndl]
      have hoff : ((d.on event h).off event h).handlers.lookup event =
          some ((if h ∈ l then l else l ++ [h]).erase h) := by
        have hmi := lookup_map_ite (d.on event h).handlers event
          (fun x => x.erase h)
        rw [hon] at hmi
        exact hmi
      simp only [Dispatcher.emitInvoked, hoff, Option.getD_some]
      intro hcontra
      exact absurd (hnd2.mem_erase_iff.mp hcontra).1 (by simp)
  · intro hnotin
    obtain ⟨hs⟩ := d
    show Dispatcher.mk _ = _
    congr 1
    cases hl : hs.lookup event with
    | none =>
      apply map_erase_eq_self
      intro kv hkv hke
      exfalso
      apply (lookup_eq_none_iff hs event).mp hl kv.2
      have : kv = (event, kv.2) := by
        rw [← hke]
      rw [← this]
      exact hkv
    | some l =>
      have hninl : h ∉ l := by
        rw [show Dispatcher.emitInvoked ⟨hs⟩ event = l by
          simp [Dispatcher.emitInvoked, hl]] at hnotin
        exact hnotin
      apply map_erase_eq_self
      intro kv hkv hke
      have hkv2 : (event, kv.2) ∈ hs := by
        have : kv = (event, kv.2) := by rw [← hke]
        rw [← this]
        exact hkv
      have : kv.2 = l :=
        mem_eq_of_keys_nodup hwf.1 hkv2 (mem_of_lookup_eq_some hl)
      rw [this]
      exact hninl

/-- C9 witness: a fresh registry; subscribe then unsubscribe callback 0 on
kind `message`. -/
theorem claim9_witness :
    0 ∉ ((Dispatcher.on ⟨[]⟩ "message" 0).off "message" 0).emitInvoked
        "message" ∧
      (0 ∉ (Dispatcher.mk []).emitInvoked "message" →
        (Dispatcher.mk []).off "message" 0 = ⟨[]⟩) :=
  claim9_on_off ⟨[]⟩ "message" 0 ⟨by simp, by simp⟩

end Smee
